import Mathlib

/-!
Verification of the resilient LLM request gateway of the
Multi-Cloud-AI-Management-Agent repository: key selection, rate limiting,
circuit breaking, backoff and fallback response synthesis.

The gateway implementation itself (rate_limiter.py, gemini.py,
fallback_responses.py, main.py) is not part of the source tree available
here; only its documentation (backend/api_config_guide.md,
backend/429_FIX_SUMMARY.md, setup_api_keys.md) and its deployment scripts
(railway-start.sh, start.sh) are.  The definitions below are therefore
modelled from the specification, with the deployment scripts and the
in-repo guides supplying the concrete constants (30 text requests per
minute, 20 vision requests per minute, failure threshold 5, recovery
timeout 60 s, two uvicorn worker processes by default).
-/

namespace Gateway

/-- Modelled from the spec: request mode of `Generate(prompt, mode)`,
`text` or `vision` (spec section 6; gemini.py is absent from the tree). -/
inductive Mode where
  | text
  | vision
deriving DecidableEq, Repr

/-- Modelled from the spec: an inbound generation request.  The prompt is
kept as a list of lowercased words, which is all the keyword heuristics of
the fallback responder inspect (fallback_responses.py is absent). -/
structure Request where
  promptWords : List String
  mode : Mode
deriving DecidableEq, Repr

/-- Modelled from the spec: circuit state of one key
(Closed, Open, HalfOpen; spec section 4.2; rate_limiter.py is absent). -/
inductive CircuitState where
  | Closed
  | Open
  | HalfOpen
deriving DecidableEq, Repr

/-- Modelled from the spec: per-key mutable record (spec section 3;
rate_limiter.py and gemini.py are absent).  Timestamps are seconds as
naturals; the backoff multiplier is an exact rational standing for the
source float. -/
structure KeyRecord where
  id : Nat
  secret : String
  requestTimestamps : List Nat
  circuitState : CircuitState
  consecutiveFailures : Nat
  openedAt : Option Nat
  backoffMultiplier : ℚ
  disabled : Bool
  probeInProgress : Bool
deriving DecidableEq, Repr

/-- Modelled from the spec: gateway configuration constants, with the
defaults of backend/api_config_guide.md (RATE_LIMIT_PER_MINUTE=30,
CIRCUIT_BREAKER_FAILURE_THRESHOLD=5, CIRCUIT_BREAKER_RECOVERY_TIMEOUT=60,
INITIAL_RETRY_DELAY=2.0, MAX_RETRY_DELAY=60.0). -/
structure Config where
  maxRequestsPerWindow : Nat
  windowSeconds : Nat
  failureThreshold : Nat
  recoveryTimeout : Nat
  baseDelay : ℚ
  maxMultiplier : ℚ
deriving DecidableEq, Repr

/-- The default configuration of backend/api_config_guide.md. -/
def defaultConfig : Config :=
  { maxRequestsPerWindow := 30
    windowSeconds := 60
    failureThreshold := 5
    recoveryTimeout := 60
    baseDelay := 2
    maxMultiplier := 30 }

/-- A freshly configured key record (pool creation at startup,
spec section 3). -/
def initKey (i : Nat) (s : String) : KeyRecord :=
  { id := i
    secret := s
    requestTimestamps := []
    circuitState := .Closed
    consecutiveFailures := 0
    openedAt := none
    backoffMultiplier := 1
    disabled := false
    probeInProgress := false }

/-- Modelled from the spec: per-mode sliding-window limit.  Backend
api_config_guide.md, Current Limits (Per API Key): text generation 30
requests per minute, vision generation 20 requests per minute
(`max_requests=30` in generate_text, `max_requests=20` in
generate_text_with_image). -/
def limitFor (mode : Mode) : Nat :=
  match mode with
  | .text => 30
  | .vision => 20

/-- Modelled from the spec: prune timestamps older than `now - window`
(spec section 4.1).  A timestamp `t` is kept exactly when `now < t + w`. -/
def pruneWindow (w : Nat) (now : Nat) (ts : List Nat) : List Nat :=
  ts.filter (fun t => decide (now < t + w))

/-- Modelled from the spec: one admission check of `RateLimiter.Admit`
(spec section 4.1) on a single key state (its timestamp list): prune, then
if the remaining count is below the limit record `now` and allow,
otherwise deny with no side effect. -/
def admitStep (w maxR : Nat) (ts : List Nat) (now : Nat) : Bool × List Nat :=
  let pruned := pruneWindow w now ts
  if pruned.length < maxR then (true, pruned ++ [now]) else (false, ts)

/-- The timestamps of the allowed admissions when a sequence of admission
checks at the given call times runs against one limiter state.  Per-key
locking makes concurrent callers equivalent to such a sequential
interleaving (spec section 5). -/
def admittedTimes (w maxR : Nat) : List Nat → List Nat → List Nat
  | _, [] => []
  | ts, now :: rest =>
    let r := admitStep w maxR ts now
    if r.1 then now :: admittedTimes w maxR r.2 rest
    else admittedTimes w maxR r.2 rest

/-- Whether a timestamp lies in the rolling window `[t, t + w)`. -/
def inWin (t w x : Nat) : Bool :=
  decide (t ≤ x) && decide (x < t + w)

/-- The admissions granted by a whole deployment of several worker
processes, each holding its own in-process limiter state for the same
credential.  railway-start.sh launches `uvicorn --workers 2` by default,
and the limiter state is process-local (spec section 9: global singleton
key manager). -/
def deploymentAdmitted (w maxR : Nat) (workerCalls : List (List Nat)) : List Nat :=
  (workerCalls.map (admittedTimes w maxR [])).flatten

/-- Modelled from the spec: success handler (spec sections 4.2 and 4.5):
any success at any state resets `consecutiveFailures` to 0, forces the
circuit to `Closed` and resets the backoff multiplier to 1. -/
def recordSuccess (k : KeyRecord) : KeyRecord :=
  { k with
    consecutiveFailures := 0
    circuitState := .Closed
    openedAt := none
    backoffMultiplier := 1
    probeInProgress := false }

/-- Modelled from the spec: retryable-failure handler (spec sections 4.2,
4.3 and 4.5): increment `consecutiveFailures`, double the backoff
multiplier up to the configured ceiling, open the circuit when the count
reaches the failure threshold, and reopen with a fresh `openedAt` when a
half-open probe fails. -/
def recordFailure (cfg : Config) (now : Nat) (k : KeyRecord) : KeyRecord :=
  let f := k.consecutiveFailures + 1
  let toOpen := k.circuitState = .HalfOpen ∨ cfg.failureThreshold ≤ f
  { k with
    consecutiveFailures := f
    backoffMultiplier := min (k.backoffMultiplier * 2) cfg.maxMultiplier
    circuitState := if toOpen then .Open else k.circuitState
    openedAt := if toOpen then some now else k.openedAt
    probeInProgress := false }

/-- Modelled from the spec: non-retryable failure handler (spec
section 7, AuthError): the key is marked `disabled` permanently. -/
def disableKey (k : KeyRecord) : KeyRecord :=
  { k with disabled := true }

/-- Modelled from the spec: Open to HalfOpen transition (spec
section 4.2): once the recovery timeout has elapsed since `openedAt`,
an Open key becomes HalfOpen; otherwise nothing changes. -/
def toHalfOpen (cfg : Config) (now : Nat) (k : KeyRecord) : KeyRecord :=
  match k.circuitState, k.openedAt with
  | .Open, some t =>
    if t + cfg.recoveryTimeout ≤ now then { k with circuitState := .HalfOpen } else k
  | _, _ => k

/-- Modelled from the spec: administrative reset of one key
(spec section 4.7): a disabled key is left untouched; any other key has
its circuit forced to `Closed`, its failure count cleared and its backoff
multiplier reset to the default. -/
def resetKey (k : KeyRecord) : KeyRecord :=
  if k.disabled then k
  else
    { k with
      circuitState := .Closed
      consecutiveFailures := 0
      openedAt := none
      backoffMultiplier := 1 }

/-- Modelled from the spec: `ResetAll` (spec section 4.7), applied to the
whole pool. -/
def resetAll (pool : List KeyRecord) : List KeyRecord :=
  pool.map resetKey

/-- Overwriting the timestamp list of a key: the only effect the rate
limiter has on a key record. -/
def stampKey (ts : List Nat) (k : KeyRecord) : KeyRecord :=
  { k with requestTimestamps := ts }

/-- The key states reachable from a freshly configured key under the
gateway operations (success, retryable failure, auth disable, half-open
transition, administrative reset, rate-limiter stamping). -/
inductive ReachableKey (cfg : Config) : KeyRecord → Prop where
  | init (i : Nat) (s : String) : ReachableKey cfg (initKey i s)
  | success {k : KeyRecord} : ReachableKey cfg k → ReachableKey cfg (recordSuccess k)
  | failure {k : KeyRecord} (now : Nat) :
      ReachableKey cfg k → ReachableKey cfg (recordFailure cfg now k)
  | disable {k : KeyRecord} : ReachableKey cfg k → ReachableKey cfg (disableKey k)
  | halfOpen {k : KeyRecord} (now : Nat) :
      ReachableKey cfg k → ReachableKey cfg (toHalfOpen cfg now k)
  | reset {k : KeyRecord} : ReachableKey cfg k → ReachableKey cfg (resetKey k)
  | stamp {k : KeyRecord} (ts : List Nat) :
      ReachableKey cfg k → ReachableKey cfg (stampKey ts k)

/-- Number of a key's request timestamps lying in the current window. -/
def windowCount (cfg : Config) (now : Nat) (k : KeyRecord) : Nat :=
  (pruneWindow cfg.windowSeconds now k.requestTimestamps).length

/-- Whether a key is blocked because its circuit is Open and the recovery
timeout has not yet elapsed (spec section 4.2). -/
def openBlocked (cfg : Config) (now : Nat) (k : KeyRecord) : Bool :=
  match k.circuitState, k.openedAt with
  | .Open, some t => decide (now < t + cfg.recoveryTimeout)
  | .Open, none => false
  | _, _ => false

/-- Modelled from the spec: admissibility of one key for `SelectKey`
(spec section 4.4): not disabled, not among the excluded ids, not Open
with an unexpired recovery timeout, and currently admitted by the rate
limiter. -/
def admissibleKey (cfg : Config) (now : Nat) (excl : List Nat) (k : KeyRecord) : Bool :=
  !k.disabled && !(excl.contains k.id) && !(openBlocked cfg now k) &&
    decide (windowCount cfg now k < cfg.maxRequestsPerWindow)

/-- Strict preference between candidate keys (spec section 4.4): lower
backoff multiplier first, ties broken by fewer request timestamps in the
current window. -/
def keyPref (cfg : Config) (now : Nat) (a b : KeyRecord) : Prop :=
  a.backoffMultiplier < b.backoffMultiplier ∨
    (a.backoffMultiplier = b.backoffMultiplier ∧
      windowCount cfg now a < windowCount cfg now b)

instance (cfg : Config) (now : Nat) (a b : KeyRecord) :
    Decidable (keyPref cfg now a b) := by
  unfold keyPref
  infer_instance

/-- One step of the selection fold: keep the best candidate seen so far,
replacing it only by a strictly preferred one. -/
def pickBetter (cfg : Config) (now : Nat) (acc : Option KeyRecord) (k : KeyRecord) :
    Option KeyRecord :=
  match acc with
  | none => some k
  | some b => if keyPref cfg now k b then some k else some b

/-- Modelled from the spec: `SelectKey(excluding)` (spec section 4.4;
gemini.py api_key_manager.get_best_key is absent from the tree): iterate
the admissible keys and pick the preferred one, or none. -/
def selectKey (cfg : Config) (now : Nat) (excl : List Nat) (pool : List KeyRecord) :
    Option KeyRecord :=
  (pool.filter (admissibleKey cfg now excl)).foldl (pickBetter cfg now) none

/-- Modelled from the spec: the fixed task categories of the fallback
responder (spec section 4.6; fallback_responses.py is absent from the
tree). -/
inductive TaskCategory where
  | planning
  | analysis
  | research
  | automation
  | contentCreation
  | troubleshooting
  | generic
deriving DecidableEq, Repr

/-- Modelled from the spec: keyword heuristics per category, first-match
wins in this fixed priority order (spec sections 4.6 and 9). -/
def categoryKeywords (c : TaskCategory) : List String :=
  match c with
  | .planning => ["plan", "schedule", "organize", "steps"]
  | .analysis => ["analyze", "analysis", "compare", "evaluate"]
  | .research => ["research", "find", "search", "information"]
  | .automation => ["automate", "automation", "workflow", "script"]
  | .contentCreation => ["write", "create", "draft", "content"]
  | .troubleshooting => ["error", "fix", "debug", "issue"]
  | .generic => []

/-- The category priority order used for first-match classification. -/
def categoryOrder : List TaskCategory :=
  [.planning, .analysis, .research, .automation, .contentCreation, .troubleshooting]

/-- Whether a request's words contain one of the keywords of a category. -/
def matchesCategory (req : Request) (c : TaskCategory) : Bool :=
  (categoryKeywords c).any (fun kw => req.promptWords.contains kw)

/-- Modelled from the spec: pure classification of a request into a task
category by keyword heuristics, first match in the fixed priority order,
defaulting to `generic` (spec section 4.6). -/
def classifyReq (req : Request) : TaskCategory :=
  match categoryOrder.find? (matchesCategory req) with
  | some c => c
  | none => .generic

/-- Modelled from the spec: the hand-authored structured template of each
category (spec section 4.6): ordered steps or a checklist, never an error
string. -/
def categoryTemplate (c : TaskCategory) : String :=
  match c with
  | .planning => "Step-by-step task breakdown: 1. clarify the goal 2. list subtasks 3. order and schedule them"
  | .analysis => "Analysis framework: 1. gather the data 2. identify patterns 3. draw conclusions"
  | .research => "Research methodology: 1. define the question 2. collect sources 3. summarize findings"
  | .automation => "Automation strategy: 1. map the workflow 2. identify repeatable steps 3. script them"
  | .contentCreation => "Content development process: 1. outline 2. draft 3. revise"
  | .troubleshooting => "Troubleshooting procedure: 1. reproduce the issue 2. isolate the cause 3. apply and verify a fix"
  | .generic => "General guidance: 1. restate the request 2. break it into actionable steps 3. proceed incrementally"

/-- The result type of `Generate` (spec section 6): text, the id of the
key used (none for a synthesized answer), and the degraded flag. -/
structure GenResult where
  text : String
  usedKeyId : Option Nat
  degraded : Bool
deriving DecidableEq, Repr

/-- Modelled from the spec: `FallbackResponder.Respond` (spec
section 4.6): classify the request, instantiate the category template,
and tag the result as degraded.  A pure function of the request alone: it
consults no key, no oracle and no clock, hence calls no external
service. -/
def respondFallback (req : Request) : GenResult :=
  { text := categoryTemplate (classifyReq req)
    usedKeyId := none
    degraded := true }

/-- Modelled from the spec: error taxonomy of the gateway (spec
section 7). -/
inductive ErrorKind where
  | RateLimited
  | TransientProviderError
  | QuotaExceeded
  | AuthError
deriving DecidableEq, Repr

/-- Outcome of one outbound provider attempt, supplied by an oracle so
that the gateway logic can be analyzed for every provider behavior. -/
inductive AttemptOutcome where
  | success (text : String)
  | failure (e : ErrorKind)
deriving DecidableEq, Repr

/-- Apply an update to the pool entry (entries) with the given id. -/
def updatePool (pool : List KeyRecord) (i : Nat) (f : KeyRecord → KeyRecord) :
    List KeyRecord :=
  pool.map (fun k => if k.id = i then f k else k)

/-- Modelled from the spec: the bounded retry loop of `Gateway.Generate`
(spec section 4.5), with the remaining attempt budget as fuel.  Returns
the result, the updated pool, and the trace of provider calls made (the
ids of the keys actually attempted).  Every failure path ends in the
fallback responder; no error is ever returned. -/
def generateLoop (cfg : Config) (req : Request) (oracle : Nat → AttemptOutcome)
    (now : Nat) : Nat → List KeyRecord → List Nat →
    GenResult × List KeyRecord × List Nat
  | 0, pool, _ => (respondFallback req, pool, [])
  | fuel + 1, pool, tried =>
    match selectKey cfg now tried pool with
    | none => (respondFallback req, pool, [])
    | some k =>
      match oracle k.id with
      | .success txt =>
        ({ text := txt, usedKeyId := some k.id, degraded := false },
         updatePool pool k.id recordSuccess, [k.id])
      | .failure e =>
        let pool' :=
          if e = .AuthError then updatePool pool k.id disableKey
          else updatePool pool k.id (recordFailure cfg now)
        let r := generateLoop cfg req oracle now fuel pool' (tried ++ [k.id])
        (r.1, r.2.1, k.id :: r.2.2)

/-- Modelled from the spec: `Gateway.Generate` (spec section 4.5), with
attempt budget `min 3 poolSize`. -/
def generate (cfg : Config) (pool : List KeyRecord) (req : Request)
    (oracle : Nat → AttemptOutcome) (now : Nat) :
    GenResult × List KeyRecord × List Nat :=
  generateLoop cfg req oracle now (min 3 pool.length) pool []

/-- The fatal startup configuration error (spec sections 6 and 7). -/
inductive ConfigFault where
  | emptyKeyPool
deriving DecidableEq, Repr

/-- Modelled from the spec and railway-start.sh: boot-time validation of
the configured credential list (railway-start.sh exits with status 1 when
neither GEMINI_API_KEYS nor GEMINI_API_KEY is set); a non-empty list
yields the startup pool. -/
def bootPool (creds : List String) : Except ConfigFault (List KeyRecord) :=
  match creds with
  | [] => .error .emptyKeyPool
  | _ => .ok ((creds.enum).map (fun p => initKey p.1 p.2))

/-- Marking the per-key probe-in-progress flag (spec section 4.2: a flag
separate from the state enum, set when the single half-open probe is
dispatched). -/
def setProbe (k : KeyRecord) : KeyRecord :=
  { k with probeInProgress := true }

/-- State of one key's half-open probe protocol: the key record plus the
number of in-flight probe attempts currently routed to the key. -/
structure ProbeSys where
  key : KeyRecord
  inflight : Nat
deriving DecidableEq, Repr

/-- Modelled from the spec: interleaving steps of the half-open probe
protocol of one key (spec section 4.2).  A probe may start only when the
key is HalfOpen and no probe is marked in progress; its resolution records
the outcome and clears the flag (a success handler clears it, and the
failure handler also clears it). -/
inductive ProbeStep (cfg : Config) : ProbeSys → ProbeSys → Prop where
  | timeout (s : ProbeSys) (now : Nat) :
      ProbeStep cfg s ⟨toHalfOpen cfg now s.key, s.inflight⟩
  | attemptOk (s : ProbeSys) :
      s.key.circuitState ≠ .HalfOpen →
      ProbeStep cfg s ⟨recordSuccess s.key, s.inflight⟩
  | attemptFail (s : ProbeSys) (now : Nat) :
      s.key.circuitState ≠ .HalfOpen →
      ProbeStep cfg s ⟨recordFailure cfg now s.key, s.inflight⟩
  | beginProbe (s : ProbeSys) :
      s.key.circuitState = .HalfOpen →
      s.key.probeInProgress = false →
      ProbeStep cfg s ⟨setProbe s.key, s.inflight + 1⟩
  | probeOk (s : ProbeSys) :
      0 < s.inflight →
      ProbeStep cfg s ⟨recordSuccess s.key, s.inflight - 1⟩
  | probeFail (s : ProbeSys) (now : Nat) :
      0 < s.inflight →
      ProbeStep cfg s ⟨recordFailure cfg now s.key, s.inflight - 1⟩

/-- Probe-protocol states reachable from a freshly configured key with no
probe in flight. -/
inductive ProbeReach (cfg : Config) : ProbeSys → Prop where
  | init (i : Nat) (s : String) : ProbeReach cfg ⟨initKey i s, 0⟩
  | step {s s' : ProbeSys} : ProbeReach cfg s → ProbeStep cfg s s' → ProbeReach cfg s'

/-- A run of consecutive retryable failures on one key, at the given
failure times, with no intervening success. -/
def failRun (cfg : Config) (nows : List Nat) (k : KeyRecord) : KeyRecord :=
  nows.foldl (fun a now => recordFailure cfg now a) k

/-- Counting predicate agreement on members carries over to `countP`. -/
theorem countP_congr_mem {α : Type} (p q : α → Bool) :
    ∀ (l : List α), (∀ a ∈ l, p a = q a) → l.countP p = l.countP q := by
  intro l
  induction l with
  | nil => intro _; rfl
  | cons a t ih =>
    intro h
    simp only [List.countP_cons, h a (by simp), ih (fun x hx => h x (by simp [hx]))]

/-- The Open to HalfOpen transition either leaves the key unchanged or
turns an Open key into the same key with a HalfOpen circuit. -/
theorem toHalfOpen_cases (cfg : Config) (now : Nat) (k : KeyRecord) :
    toHalfOpen cfg now k = k ∨
      (k.circuitState = .Open ∧
        toHalfOpen cfg now k = { k with circuitState := .HalfOpen }) := by
  unfold toHalfOpen
  cases h1 : k.circuitState with
  | Open =>
    cases h2 : k.openedAt with
    | none => exact Or.inl rfl
    | some t =>
      by_cases hc : t + cfg.recoveryTimeout ≤ now
      · exact Or.inr ⟨rfl, by simp [hc]⟩
      · exact Or.inl (by simp [hc])
  | Closed => exact Or.inl rfl
  | HalfOpen => exact Or.inl rfl

/-- The circuit invariant: in every reachable key state, an Open or
HalfOpen circuit carries at least `failureThreshold` consecutive
failures. -/
theorem reach_circuit_failures (cfg : Config) :
    ∀ (k : KeyRecord), ReachableKey cfg k →
      (k.circuitState = .Open ∨ k.circuitState = .HalfOpen) →
      cfg.failureThreshold ≤ k.consecutiveFailures := by
  intro k hreach
  induction hreach with
  | init i s => intro h; rcases h with h | h <;> simp [initKey] at h
  | success ih => intro h; rcases h with h | h <;> simp [recordSuccess] at h
  | @failure k now _ ih =>
    intro _
    by_cases hopen : k.circuitState = .HalfOpen ∨ cfg.failureThreshold ≤ k.consecutiveFailures + 1
    · have hk : cfg.failureThreshold ≤ k.consecutiveFailures + 1 := by
        rcases hopen with h | h
        · exact le_trans (ih (Or.inr h)) (Nat.le_succ _)
        · exact h
      simpa [recordFailure] using hk
    · exfalso
      have hstate : (recordFailure cfg now k).circuitState = k.circuitState := by
        simp [recordFailure, hopen]
      rename_i hO
      rcases hO with h | h
      · rw [hstate] at h
        have : cfg.failureThreshold ≤ k.consecutiveFailures := ih (Or.inl h)
        exact hopen (Or.inr (le_trans this (Nat.le_succ _)))
      · rw [hstate] at h
        exact hopen (Or.inl h)
  | @disable k _ ih =>
    intro h
    simp only [disableKey] at h ⊢
    exact ih h
  | @halfOpen k now _ ih =>
    intro h
    rcases toHalfOpen_cases cfg now k with he | ⟨hs, he⟩
    · rw [he] at h ⊢
      exact ih h
    · rw [he] at h ⊢
      exact ih (Or.inl hs)
  | @reset k _ ih =>
    intro h
    by_cases hd : k.disabled
    · simp only [resetKey, hd, if_true] at h ⊢
      exact ih h
    · simp [resetKey, hd] at h
  | @stamp k ts _ ih =>
    intro h
    simp only [stampKey] at h ⊢
    exact ih h

/-- The backoff invariant: in every reachable key state the backoff
multiplier lies between 1 and the configured ceiling (provided the
ceiling is at least 1, as in the default configuration). -/
theorem reach_backoff_bounds (cfg : Config) (hcap : 1 ≤ cfg.maxMultiplier) :
    ∀ (k : KeyRecord), ReachableKey cfg k →
      1 ≤ k.backoffMultiplier ∧ k.backoffMultiplier ≤ cfg.maxMultiplier := by
  intro k hreach
  induction hreach with
  | init i s => exact ⟨le_refl 1, hcap⟩
  | success ih => exact ⟨le_refl 1, hcap⟩
  | @failure k now _ ih =>
    obtain ⟨h1, h2⟩ := ih
    constructor
    · simp only [recordFailure]
      refine le_min ?_ hcap
      nlinarith
    · simp only [recordFailure]
      exact min_le_right _ _
  | @disable k _ ih => simpa [disableKey] using ih
  | @halfOpen k now _ ih =>
    rcases toHalfOpen_cases cfg now k with he | ⟨_, he⟩ <;> rw [he] <;> simpa using ih
  | @reset k _ ih =>
    by_cases hd : k.disabled
    · simpa [resetKey, hd] using ih
    · simpa [resetKey, hd] using hcap
  | @stamp k ts _ ih => simpa [stampKey] using ih

/-- A run of consecutive failures keeps the key reachable. -/
theorem reach_failRun (cfg : Config) :
    ∀ (nows : List Nat) (k : KeyRecord), ReachableKey cfg k →
      ReachableKey cfg (failRun cfg nows k) := by
  intro nows
  induction nows with
  | nil => intro k h; exact h
  | cons now rest ih =>
    intro k h
    exact ih _ (ReachableKey.failure now h)

/-- Claim C6: immediately after any successful attempt on a key, in any
prior circuit state, the key's consecutive-failure count is 0, its
circuit is Closed and its backoff multiplier is 1. -/
theorem success_resets_key :
    ∀ (k : KeyRecord),
      (recordSuccess k).consecutiveFailures = 0 ∧
        (recordSuccess k).circuitState = .Closed ∧
        (recordSuccess k).backoffMultiplier = 1 := by
  intro k
  exact ⟨rfl, rfl, rfl⟩

/-- Claim C8: `ResetAll` maps every key through `resetKey`, which forces
each non-disabled key's circuit to Closed and clears its failure count
and backoff multiplier, never changes the disabled flag, and leaves a
disabled key entirely unchanged. -/
theorem resetAll_frame :
    ∀ (pool : List KeyRecord) (k : KeyRecord),
      resetAll pool = pool.map resetKey ∧
      (resetKey k).disabled = k.disabled ∧
      (k.disabled = true → resetKey k = k) ∧
      (k.disabled = false →
        (resetKey k).circuitState = .Closed ∧
          (resetKey k).consecutiveFailures = 0 ∧
          (resetKey k).backoffMultiplier = 1) := by
  intro pool k
  refine ⟨rfl, ?_, ?_, ?_⟩
  · by_cases hd : k.disabled <;> simp [resetKey, hd]
  · intro hd; simp [resetKey, hd]
  · intro hd; simp [resetKey, hd]

/-- Witness for C8: resetting a pool with one Open key and one disabled
key closes the former and leaves the latter alone. -/
theorem resetAll_frame_witness :
    (resetKey
        { initKey 0 "a" with
          circuitState := .Open
          consecutiveFailures := 5
          backoffMultiplier := 8 }).circuitState = .Closed ∧
      resetKey (disableKey (initKey 1 "b")) = disableKey (initKey 1 "b") := by
  constructor
  · exact ((resetAll_frame []
      { initKey 0 "a" with
        circuitState := .Open
        consecutiveFailures := 5
        backoffMultiplier := 8 }).2.2.2 rfl).1
  · exact (resetAll_frame [] (disableKey (initKey 1 "b"))).2.2.1 rfl

/-- Claim C3: in every reachable state a key whose consecutive-failure
count is below the threshold is never Open, and a failure on a Closed key
opens the circuit exactly when the count reaches the threshold, never
before. -/
theorem circuit_opens_at_threshold :
    ∀ (cfg : Config) (k : KeyRecord),
      (ReachableKey cfg k → k.circuitState = .Open →
        cfg.failureThreshold ≤ k.consecutiveFailures) ∧
      (∀ now, k.circuitState = .Closed →
        k.consecutiveFailures + 1 = cfg.failureThreshold →
        (recordFailure cfg now k).circuitState = .Open) ∧
      (∀ now, k.circuitState = .Closed →
        k.consecutiveFailures + 1 < cfg.failureThreshold →
        (recordFailure cfg now k).circuitState = .Closed) := by
  intro cfg k
  refine ⟨fun hr ho => reach_circuit_failures cfg k hr (Or.inl ho), ?_, ?_⟩
  · intro now hc hf
    have : k.circuitState = CircuitState.HalfOpen ∨
        cfg.failureThreshold ≤ k.consecutiveFailures + 1 := Or.inr (le_of_eq hf.symm)
    simp [recordFailure, this]
  · intro now hc hf
    have : ¬ (k.circuitState = CircuitState.HalfOpen ∨
        cfg.failureThreshold ≤ k.consecutiveFailures + 1) := by
      rintro (h | h)
      · rw [hc] at h; exact CircuitState.noConfusion h
      · omega
    simp [recordFailure, this, hc]
    omega

/-- Witness for C3: from a fresh key, four failures leave the circuit
Closed, the fifth opens it, and the resulting Open state is reachable
with at least five consecutive failures. -/
theorem circuit_opens_at_threshold_witness :
    (recordFailure defaultConfig 0 (failRun defaultConfig [0, 0, 0] (initKey 0 "a"))).circuitState
        = .Closed ∧
      (recordFailure defaultConfig 0 (failRun defaultConfig [0, 0, 0, 0] (initKey 0 "a"))).circuitState
        = .Open ∧
      defaultConfig.failureThreshold ≤
        (failRun defaultConfig [0, 0, 0, 0, 0] (initKey 0 "a")).consecutiveFailures := by
  refine ⟨?_, ?_, ?_⟩
  · exact (circuit_opens_at_threshold defaultConfig
      (failRun defaultConfig [0, 0, 0] (initKey 0 "a"))).2.2 0 (by decide) (by decide)
  · exact (circuit_opens_at_threshold defaultConfig
      (failRun defaultConfig [0, 0, 0, 0] (initKey 0 "a"))).2.1 0 (by decide) (by decide)
  · exact (circuit_opens_at_threshold defaultConfig
      (failRun defaultConfig [0, 0, 0, 0, 0] (initKey 0 "a"))).1
      (reach_failRun defaultConfig _ _ (ReachableKey.init 0 "a")) (by decide)

/-- Claim C7: across any run of consecutive failures with no intervening
success, the backoff multiplier never decreases (each failure doubles it
up to the configured ceiling), and the next success resets it to 1. -/
theorem backoff_monotone_reset :
    ∀ (cfg : Config) (k : KeyRecord), 1 ≤ cfg.maxMultiplier → ReachableKey cfg k →
      (∀ (nows : List Nat) (now : Nat),
        (failRun cfg nows k).backoffMultiplier ≤
          (failRun cfg (nows ++ [now]) k).backoffMultiplier) ∧
      (∀ now, (recordFailure cfg now k).backoffMultiplier =
        min (k.backoffMultiplier * 2) cfg.maxMultiplier) ∧
      (∀ (nows : List Nat), (recordSuccess (failRun cfg nows k)).backoffMultiplier = 1) := by
  intro cfg k hcap hreach
  refine ⟨?_, fun now => rfl, fun nows => rfl⟩
  intro nows now
  have hreach' : ReachableKey cfg (failRun cfg nows k) := reach_failRun cfg nows k hreach
  obtain ⟨h1, h2⟩ := reach_backoff_bounds cfg hcap _ hreach'
  have heq : failRun cfg (nows ++ [now]) k = recordFailure cfg now (failRun cfg nows k) := by
    unfold failRun
    rw [List.foldl_append]
    rfl
  rw [heq]
  simp only [recordFailure]
  refine le_min ?_ h2
  nlinarith

/-- Witness for C7: on a fresh key under the default configuration, one
more failure after a first failure does not decrease the multiplier, a
failure doubles it, and a success after two failures resets it to 1. -/
theorem backoff_monotone_reset_witness :
    (failRun defaultConfig [3] (initKey 0 "a")).backoffMultiplier ≤
        (failRun defaultConfig [3, 7] (initKey 0 "a")).backoffMultiplier ∧
      (recordFailure defaultConfig 3 (initKey 0 "a")).backoffMultiplier =
        min ((initKey 0 "a").backoffMultiplier * 2) defaultConfig.maxMultiplier ∧
      (recordSuccess (failRun defaultConfig [3, 7] (initKey 0 "a"))).backoffMultiplier = 1 := by
  obtain ⟨hm, hd, hs⟩ := backoff_monotone_reset defaultConfig (initKey 0 "a")
    (by norm_num [defaultConfig]) (ReachableKey.init 0 "a")
  exact ⟨hm [3] 7, hd 3, hs [3, 7]⟩

/-- The probe-protocol invariant: at most one probe in flight, none when
the probe flag is clear, and the flag is only ever set on a HalfOpen
key. -/
theorem probe_protocol_inv (cfg : Config) :
    ∀ (s : ProbeSys), ProbeReach cfg s →
      s.inflight ≤ 1 ∧
        (s.key.probeInProgress = false → s.inflight = 0) ∧
        (s.key.probeInProgress = true → s.key.circuitState = .HalfOpen) := by
  intro s hreach
  induction hreach with
  | init i str => exact ⟨by simp, fun _ => rfl, by simp [initKey]⟩
  | @step s s' _ hstep ih =>
    obtain ⟨ih1, ih2, ih3⟩ := ih
    cases hstep with
    | timeout now =>
      rcases toHalfOpen_cases cfg now s.key with he | ⟨hs2, he⟩
      · refine ⟨ih1, ?_, ?_⟩
        · intro h
          simp only [he] at h
          exact ih2 h
        · intro h
          simp only [he] at h ⊢
          exact ih3 h
      · refine ⟨ih1, ?_, ?_⟩
        · intro h
          simp only [he] at h
          exact ih2 h
        · intro _
          simp only [he]
    | attemptOk hguard =>
      have hp : s.key.probeInProgress = false := by
        cases hpp : s.key.probeInProgress
        · rfl
        · exact absurd (ih3 hpp) hguard
      refine ⟨?_, ?_, ?_⟩
      · show s.inflight ≤ 1
        exact ih1
      · intro _
        show s.inflight = 0
        exact ih2 hp
      · intro h
        simp [recordSuccess] at h
    | attemptFail now hguard =>
      have hp : s.key.probeInProgress = false := by
        cases hpp : s.key.probeInProgress
        · rfl
        · exact absurd (ih3 hpp) hguard
      refine ⟨?_, ?_, ?_⟩
      · show s.inflight ≤ 1
        exact ih1
      · intro _
        show s.inflight = 0
        exact ih2 hp
      · intro h
        simp [recordFailure] at h
    | beginProbe hhalf hp =>
      have h0 : s.inflight = 0 := ih2 hp
      refine ⟨?_, ?_, ?_⟩
      · show s.inflight + 1 ≤ 1
        omega
      · intro h
        simp [setProbe] at h
      · intro _
        show (setProbe s.key).circuitState = _
        simpa [setProbe] using hhalf
    | probeOk hpos =>
      refine ⟨?_, ?_, ?_⟩
      · show s.inflight - 1 ≤ 1
        omega
      · intro _
        show s.inflight - 1 = 0
        omega
      · intro h
        simp [recordSuccess] at h
    | probeFail now hpos =>
      refine ⟨?_, ?_, ?_⟩
      · show s.inflight - 1 ≤ 1
        omega
      · intro _
        show s.inflight - 1 = 0
        omega
      · intro h
        simp [recordFailure] at h

/-- Claim C9: in every reachable state of the half-open probe protocol,
at most one probe attempt is in flight on the key. -/
theorem halfopen_single_probe :
    ∀ (cfg : Config) (s : ProbeSys), ProbeReach cfg s → s.inflight ≤ 1 := by
  intro cfg s hreach
  exact (probe_protocol_inv cfg s hreach).1

/-- Witness for C9: the state reached by five failed attempts, the
recovery timeout, and the dispatch of the single probe has exactly one
probe in flight, which is within the bound. -/
theorem halfopen_single_probe_witness :
    (ProbeSys.mk
        (setProbe (toHalfOpen defaultConfig 60
          (failRun defaultConfig [0, 0, 0, 0, 0] (initKey 0 "k")))) 1).inflight ≤ 1 := by
  apply halfopen_single_probe defaultConfig
  have h0 : ProbeReach defaultConfig ⟨initKey 0 "k", 0⟩ := ProbeReach.init 0 "k"
  have h1 : ProbeReach defaultConfig
      ⟨failRun defaultConfig [0] (initKey 0 "k"), 0⟩ :=
    ProbeReach.step h0 (ProbeStep.attemptFail _ 0 (by decide))
  have h2 : ProbeReach defaultConfig
      ⟨failRun defaultConfig [0, 0] (initKey 0 "k"), 0⟩ :=
    ProbeReach.step h1 (ProbeStep.attemptFail _ 0 (by decide))
  have h3 : ProbeReach defaultConfig
      ⟨failRun defaultConfig [0, 0, 0] (initKey 0 "k"), 0⟩ :=
    ProbeReach.step h2 (ProbeStep.attemptFail _ 0 (by decide))
  have h4 : ProbeReach defaultConfig
      ⟨failRun defaultConfig [0, 0, 0, 0] (initKey 0 "k"), 0⟩ :=
    ProbeReach.step h3 (ProbeStep.attemptFail _ 0 (by decide))
  have h5 : ProbeReach defaultConfig
      ⟨failRun defaultConfig [0, 0, 0, 0, 0] (initKey 0 "k"), 0⟩ :=
    ProbeReach.step h4 (ProbeStep.attemptFail _ 0 (by decide))
  have h6 : ProbeReach defaultConfig
      ⟨toHalfOpen defaultConfig 60
        (failRun defaultConfig [0, 0, 0, 0, 0] (initKey 0 "k")), 0⟩ :=
    ProbeReach.step h5 (ProbeStep.timeout _ 60)
  exact ProbeReach.step h6 (ProbeStep.beginProbe _ (by decide) (by decide))

/-- The candidate preference is irreflexive. -/
theorem keyPref_irrefl (cfg : Config) (now : Nat) (a : KeyRecord) :
    ¬ keyPref cfg now a a := by
  intro h
  rcases h with h | ⟨_, h⟩ <;> exact lt_irrefl _ h

/-- The candidate preference is transitive. -/
theorem keyPref_trans (cfg : Config) (now : Nat) {a b c : KeyRecord} :
    keyPref cfg now a b → keyPref cfg now b c → keyPref cfg now a c := by
  intro h1 h2
  rcases h1 with h1 | ⟨e1, w1⟩ <;> rcases h2 with h2 | ⟨e2, w2⟩
  · exact Or.inl (lt_trans h1 h2)
  · exact Or.inl (by rw [← e2]; exact h1)
  · exact Or.inl (by rw [e1]; exact h2)
  · exact Or.inr ⟨e1.trans e2, lt_trans w1 w2⟩

/-- A key no better than `a` is worse than anything `a` is worse than. -/
theorem keyPref_shift (cfg : Config) (now : Nat) {a b c : KeyRecord} :
    ¬ keyPref cfg now a b → keyPref cfg now a c → keyPref cfg now b c := by
  intro hn h
  have hn1 : ¬ a.backoffMultiplier < b.backoffMultiplier := fun hlt => hn (Or.inl hlt)
  have hble : b.backoffMultiplier ≤ a.backoffMultiplier := le_of_not_lt hn1
  rcases h with h | ⟨e, w⟩
  · exact Or.inl (lt_of_le_of_lt hble h)
  · rcases lt_or_eq_of_le hble with hb | hb
    · exact Or.inl (by rw [← e]; exact hb)
    · have hw : ¬ windowCount cfg now a < windowCount cfg now b := fun hlt =>
        hn (Or.inr ⟨hb.symm, hlt⟩)
      exact Or.inr ⟨hb.trans e, lt_of_le_of_lt (le_of_not_lt hw) w⟩

/-- The selection fold returns an element of the accumulator or of the
list, and nothing it saw is strictly preferred to it. -/
theorem pickBetter_fold_spec (cfg : Config) (now : Nat) :
    ∀ (l : List KeyRecord) (acc : Option KeyRecord) (k : KeyRecord),
      l.foldl (pickBetter cfg now) acc = some k →
      (acc = some k ∨ k ∈ l) ∧
        (∀ b, acc = some b → ¬ keyPref cfg now b k) ∧
        (∀ x ∈ l, ¬ keyPref cfg now x k) := by
  intro l
  induction l with
  | nil =>
    intro acc k h
    simp only [List.foldl_nil] at h
    refine ⟨Or.inl h, ?_, by simp⟩
    intro b hb
    rw [h] at hb
    cases hb
    exact keyPref_irrefl cfg now k
  | cons hd tl ih =>
    intro acc k h
    simp only [List.foldl_cons] at h
    obtain ⟨m1, m2, m3⟩ := ih (pickBetter cfg now acc hd) k h
    have hd_npref : ¬ keyPref cfg now hd k := by
      cases hacc : acc with
      | none =>
        apply m2 hd
        simp [pickBetter, hacc]
      | some b =>
        by_cases hp : keyPref cfg now hd b
        · have : ¬ keyPref cfg now hd k := by
            apply m2 hd
            simp [pickBetter, hacc, hp]
          exact this
        · have hnb : ¬ keyPref cfg now b k := by
            apply m2 b
            simp [pickBetter, hacc, hp]
          intro hhk
          exact hnb (keyPref_shift cfg now hp hhk)
    refine ⟨?_, ?_, ?_⟩
    · rcases m1 with m1 | m1
      · cases hacc : acc with
        | none =>
          rw [hacc] at m1
          simp only [pickBetter] at m1
          cases m1
          exact Or.inr (by simp)
        | some b =>
          rw [hacc] at m1
          simp only [pickBetter] at m1
          by_cases hp : keyPref cfg now hd b
          · rw [if_pos hp] at m1
            cases m1
            exact Or.inr (by simp)
          · rw [if_neg hp] at m1
            cases m1
            exact Or.inl rfl
      · exact Or.inr (List.mem_cons_of_mem hd m1)
    · intro b hb
      cases hacc : acc with
      | none => rw [hacc] at hb; cases hb
      | some b0 =>
        rw [hacc] at hb
        cases hb
        by_cases hp : keyPref cfg now hd b
        · have hhdk : ¬ keyPref cfg now hd k := by
            apply m2 hd
            simp [pickBetter, hacc, hp]
          intro hbk
          exact hhdk (keyPref_trans cfg now hp hbk)
        · apply m2 b
          simp [pickBetter, hacc, hp]
    · intro x hx
      rcases List.mem_cons.mp hx with hx | hx
      · cases hx
        exact hd_npref
      · exact m3 x hx

/-- The selection fold yields none only from an empty list and empty
accumulator. -/
theorem pickBetter_fold_none (cfg : Config) (now : Nat) :
    ∀ (l : List KeyRecord) (acc : Option KeyRecord),
      l.foldl (pickBetter cfg now) acc = none → acc = none ∧ l = [] := by
  intro l
  induction l with
  | nil => intro acc h; exact ⟨h, rfl⟩
  | cons hd tl ih =>
    intro acc h
    simp only [List.foldl_cons] at h
    obtain ⟨h1, _⟩ := ih (pickBetter cfg now acc hd) h
    exfalso
    cases hacc : acc with
    | none => rw [hacc] at h1; simp [pickBetter] at h1
    | some b =>
      rw [hacc] at h1
      by_cases hp : keyPref cfg now hd b <;> simp [pickBetter, hp] at h1

/-- Claim C4: `SelectKey` returns only keys that are admissible (not
disabled, not excluded, not Open with an unexpired recovery timeout, and
currently within the rate limit), returns one with the lowest backoff
multiplier among them with ties broken by fewest timestamps in the
current window, and returns none exactly when no key qualifies; in
particular a disabled key is never returned. -/
theorem selectKey_policy :
    ∀ (cfg : Config) (now : Nat) (excl : List Nat) (pool : List KeyRecord),
      (∀ k, selectKey cfg now excl pool = some k →
        k ∈ pool ∧ admissibleKey cfg now excl k = true ∧ k.disabled = false ∧
          ∀ q ∈ pool, admissibleKey cfg now excl q = true →
            k.backoffMultiplier ≤ q.backoffMultiplier ∧
              (k.backoffMultiplier = q.backoffMultiplier →
                windowCount cfg now k ≤ windowCount cfg now q)) ∧
      (selectKey cfg now excl pool = none ↔
        ∀ k ∈ pool, admissibleKey cfg now excl k = false) := by
  intro cfg now excl pool
  constructor
  · intro k hsel
    obtain ⟨m1, _, m3⟩ := pickBetter_fold_spec cfg now _ none k hsel
    have hkf : k ∈ pool.filter (admissibleKey cfg now excl) := by
      rcases m1 with m1 | m1
      · cases m1
      · exact m1
    have hkmem : k ∈ pool := List.mem_of_mem_filter hkf
    have hkadm : admissibleKey cfg now excl k = true := List.of_mem_filter hkf
    have hkdis : k.disabled = false := by
      have := hkadm
      unfold admissibleKey at this
      simp only [Bool.and_eq_true, Bool.not_eq_true'] at this
      exact this.1.1.1
    refine ⟨hkmem, hkadm, hkdis, ?_⟩
    intro q hq hqadm
    have hqf : q ∈ pool.filter (admissibleKey cfg now excl) :=
      List.mem_filter.mpr ⟨hq, hqadm⟩
    have hnp : ¬ keyPref cfg now q k := m3 q hqf
    have hn1 : ¬ q.backoffMultiplier < k.backoffMultiplier := fun hlt => hnp (Or.inl hlt)
    refine ⟨le_of_not_lt hn1, ?_⟩
    intro heq
    have hw : ¬ windowCount cfg now q < windowCount cfg now k := fun hlt =>
      hnp (Or.inr ⟨heq.symm, hlt⟩)
    exact le_of_not_lt hw
  · constructor
    · intro hnone k hk
      obtain ⟨_, hfil⟩ := pickBetter_fold_none cfg now _ none hnone
      by_contra hadm
      have : k ∈ pool.filter (admissibleKey cfg now excl) :=
        List.mem_filter.mpr ⟨hk, by simpa using hadm⟩
      rw [hfil] at this
      cases this
    · intro hall
      have hfil : pool.filter (admissibleKey cfg now excl) = [] := by
        rw [List.filter_eq_nil_iff]
        intro a ha
        simp [hall a ha]
      unfold selectKey
      rw [hfil]
      rfl

/-- Witness for C4: on a concrete two-key pool the selector returns the
key with the lower backoff multiplier, and that key is admissible and not
disabled; on a fully disabled pool it returns none. -/
theorem selectKey_policy_witness :
    ((initKey 1 "b").backoffMultiplier ≤
        ({ initKey 0 "a" with backoffMultiplier := 4 } : KeyRecord).backoffMultiplier ∧
      (initKey 1 "b").disabled = false) ∧
      selectKey defaultConfig 0 []
        [disableKey (initKey 0 "a"), disableKey (initKey 1 "b")] = none := by
  constructor
  · obtain ⟨hmem, hadm, hdis, hmin⟩ :=
      (selectKey_policy defaultConfig 0 []
        [{ initKey 0 "a" with backoffMultiplier := 4 }, initKey 1 "b"]).1
        (initKey 1 "b") (by decide)
    exact ⟨(hmin { initKey 0 "a" with backoffMultiplier := 4 } (by decide) (by decide)).1, hdis⟩
  · exact (selectKey_policy defaultConfig 0 []
      [disableKey (initKey 0 "a"), disableKey (initKey 1 "b")]).2.mpr (by decide)

/-- Admitted times form a sublist of the call times. -/
theorem admittedTimes_sublist (w maxR : Nat) :
    ∀ (calls : List Nat) (s : List Nat),
      (admittedTimes w maxR s calls).Sublist calls := by
  intro calls
  induction calls with
  | nil => intro s; simp [admittedTimes]
  | cons now rest ih =>
    intro s
    cases hb : (admitStep w maxR s now).1 with
    | true =>
      simp only [admittedTimes, hb, if_true]
      exact List.Sublist.cons₂ now (ih _)
    | false =>
      simp only [admittedTimes, hb, Bool.false_eq_true, if_false]
      exact List.Sublist.cons now (ih _)

/-- Central sliding-window lemma: running any nondecreasing sequence of
admission checks against one limiter state admits, in any rolling window
`[t, t + w)`, at most `maxR` minus the state's own window entries. -/
theorem admitted_window_le (w maxR t : Nat) :
    ∀ (calls : List Nat) (s : List Nat),
      List.Pairwise (· ≤ ·) calls →
      (∀ x ∈ s, ∀ n ∈ calls, x ≤ n) →
      (admittedTimes w maxR s calls).countP (fun x => inWin t w x) ≤
        maxR - s.countP (fun x => inWin t w x) := by
  intro calls
  induction calls with
  | nil => intro s _ _; simp [admittedTimes]
  | cons now rest ih =>
    intro s hpw hle
    have hnr : ∀ n ∈ rest, now ≤ n := (List.pairwise_cons.mp hpw).1
    have hpw' : List.Pairwise (· ≤ ·) rest := (List.pairwise_cons.mp hpw).2
    by_cases hwin : now < t + w
    · by_cases hlen : (pruneWindow w now s).length < maxR
      · have hstep : admitStep w maxR s now = (true, pruneWindow w now s ++ [now]) := by
          simp [admitStep, hlen]
        have hred : admittedTimes w maxR s (now :: rest) =
            now :: admittedTimes w maxR (pruneWindow w now s ++ [now]) rest := by
          simp only [admittedTimes, hstep, if_true]
        have hsub : ∀ x ∈ pruneWindow w now s ++ [now], ∀ n ∈ rest, x ≤ n := by
          intro x hx n hn
          rcases List.mem_append.mp hx with hx | hx
          · exact hle x (List.mem_of_mem_filter hx) n (List.mem_cons_of_mem _ hn)
          · rw [List.mem_singleton.mp hx]
            exact hnr n hn
        have IH := ih (pruneWindow w now s ++ [now]) hpw' hsub
        have hcnt_pruned : (pruneWindow w now s).countP (fun x => inWin t w x) =
            s.countP (fun x => inWin t w x) := by
          unfold pruneWindow
          rw [List.countP_filter]
          apply countP_congr_mem
          intro a _
          cases hwa : inWin t w a with
          | true =>
            have hta : t ≤ a ∧ a < t + w := by
              have := hwa
              unfold inWin at this
              simpa using this
            have hna : now < a + w := by omega
            simp [hna]
          | false => simp
        have hcnt_lt : s.countP (fun x => inWin t w x) < maxR :=
          lt_of_le_of_lt
            (le_trans (le_of_eq hcnt_pruned.symm) (List.countP_le_length _))
            hlen
        have hccat : (pruneWindow w now s ++ [now]).countP (fun x => inWin t w x) =
            s.countP (fun x => inWin t w x) + (if inWin t w now then 1 else 0) := by
          rw [List.countP_append, hcnt_pruned]
          simp [List.countP_cons]
        rw [hccat] at IH
        rw [hred, List.countP_cons]
        cases hwn : inWin t w now with
        | true =>
          simp only [hwn, if_true] at IH ⊢
          omega
        | false =>
          simp only [hwn, Bool.false_eq_true, if_false] at IH ⊢
          omega
      · have hstep : admitStep w maxR s now = (false, s) := by
          simp [admitStep, hlen]
        have hred : admittedTimes w maxR s (now :: rest) =
            admittedTimes w maxR s rest := by
          simp only [admittedTimes, hstep, Bool.false_eq_true, if_false]
        rw [hred]
        exact ih s hpw' (fun x hx n hn => hle x hx n (List.mem_cons_of_mem _ hn))
    · have hzero : (admittedTimes w maxR s (now :: rest)).countP
          (fun x => inWin t w x) = 0 := by
        rw [List.countP_eq_zero]
        intro a ha
        have hmem : a ∈ now :: rest := (admittedTimes_sublist w maxR _ _).subset ha
        have hge : now ≤ a := by
          rcases List.mem_cons.mp hmem with h | h
          · rw [h]
          · exact hnr a h
        unfold inWin
        simp only [Bool.and_eq_true, decide_eq_true_eq, not_and]
        intro _
        omega
      rw [hzero]
      exact Nat.zero_le _

/-- Claim C2 (amended): within a single rate-limiter instance (one worker
process), any nondecreasing sequence of admission checks on one key
admits at most `maxRequestsPerWindow` requests in every rolling window of
`windowSeconds` seconds; per-key locking makes concurrent callers in that
process equivalent to such a sequence. -/
theorem admitted_window_single_instance :
    ∀ (w maxR t : Nat) (calls : List Nat), List.Pairwise (· ≤ ·) calls →
      (admittedTimes w maxR [] calls).countP (fun x => inWin t w x) ≤ maxR := by
  intro w maxR t calls hpw
  have h := admitted_window_le w maxR t calls [] hpw (by simp)
  simpa using h

/-- Witness for the amended C2: thirty-one admission checks at time 0
against a fresh limiter admit at most thirty requests in the window
starting at 0. -/
theorem admitted_window_single_instance_witness :
    (admittedTimes 60 30 [] (List.replicate 31 0)).countP (fun x => inWin 0 60 x) ≤ 30 :=
  admitted_window_single_instance 60 30 0 (List.replicate 31 0) (by decide)

/-- Counterexample to C2 as stated: under the default railway deployment
of two uvicorn worker processes, each holding its own limiter state for
the same key, thirty-one simultaneous calls per worker admit sixty
requests on that key inside one rolling 60-second window, exceeding the
per-key limit of thirty. -/
theorem admitted_window_deployment_cex :
    30 < (deploymentAdmitted 60 30
      [List.replicate 31 0, List.replicate 31 0]).countP (fun x => inWin 0 60 x) := by
  decide

/-- Every run of the retry loop ends in a successful result from the
oracle or in the fallback responder's result. -/
theorem generateLoop_cases (cfg : Config) (req : Request)
    (oracle : Nat → AttemptOutcome) (now : Nat) :
    ∀ (fuel : Nat) (pool : List KeyRecord) (tried : List Nat),
      (∃ txt i, oracle i = .success txt ∧
        (generateLoop cfg req oracle now fuel pool tried).1 =
          { text := txt, usedKeyId := some i, degraded := false }) ∨
      (generateLoop cfg req oracle now fuel pool tried).1 = respondFallback req := by
  intro fuel
  induction fuel with
  | zero => intro pool tried; exact Or.inr rfl
  | succ n ih =>
    intro pool tried
    cases hsel : selectKey cfg now tried pool with
    | none =>
      right
      simp [generateLoop, hsel]
    | some k =>
      cases hor : oracle k.id with
      | success txt =>
        left
        exact ⟨txt, k.id, hor, by simp [generateLoop, hsel, hor]⟩
      | failure e =>
        have hred : (generateLoop cfg req oracle now (n + 1) pool tried).1 =
            (generateLoop cfg req oracle now n
              (if e = .AuthError then updatePool pool k.id disableKey
                else updatePool pool k.id (recordFailure cfg now))
              (tried ++ [k.id])).1 := by
          simp [generateLoop, hsel, hor]
        rw [hred]
        exact ih _ _

/-- When every key of the pool is disabled, no key is selectable. -/
theorem selectKey_all_disabled (cfg : Config) (now : Nat) (excl : List Nat)
    (pool : List KeyRecord) (h : ∀ k ∈ pool, k.disabled = true) :
    selectKey cfg now excl pool = none := by
  unfold selectKey
  have hfil : pool.filter (admissibleKey cfg now excl) = [] := by
    rw [List.filter_eq_nil_iff]
    intro a ha
    simp [admissibleKey, h a ha]
  rw [hfil]
  rfl

/-- Claim C1: after a successful boot on a non-empty credential list,
every request resolves to either a successful result carrying the
oracle's text or the fallback responder's degraded result; no other
outcome (in particular no error) can escape `Generate`, whatever the
provider oracle does. -/
theorem generate_no_hard_failure :
    ∀ (creds : List String), creds ≠ [] →
      (∃ pool, bootPool creds = Except.ok pool) ∧
      ∀ (cfg : Config) (pool : List KeyRecord) (req : Request)
        (oracle : Nat → AttemptOutcome) (now : Nat),
        (∃ txt i, oracle i = .success txt ∧
          (generate cfg pool req oracle now).1 =
            { text := txt, usedKeyId := some i, degraded := false }) ∨
        ((generate cfg pool req oracle now).1 = respondFallback req ∧
          (generate cfg pool req oracle now).1.degraded = true) := by
  intro creds hne
  constructor
  · cases creds with
    | nil => exact absurd rfl hne
    | cons c cs => exact ⟨_, rfl⟩
  · intro cfg pool req oracle now
    rcases generateLoop_cases cfg req oracle now (min 3 pool.length) pool [] with h | h
    · exact Or.inl h
    · refine Or.inr ⟨h, ?_⟩
      show (generateLoop cfg req oracle now (min 3 pool.length) pool []).1.degraded = true
      rw [h]
      rfl

/-- Witness for C1: a one-key configuration boots, and a run against an
always-successful provider ends in one of the two allowed outcomes. -/
theorem generate_no_hard_failure_witness :
    (∃ pool, bootPool ["k1"] = Except.ok pool) ∧
      ((∃ txt i, (fun _ : Nat => AttemptOutcome.success "ok") i = .success txt ∧
          (generate defaultConfig [initKey 0 "k1"] ⟨["hi"], .text⟩
            (fun _ => AttemptOutcome.success "ok") 0).1 =
            { text := txt, usedKeyId := some i, degraded := false }) ∨
        ((generate defaultConfig [initKey 0 "k1"] ⟨["hi"], .text⟩
            (fun _ => AttemptOutcome.success "ok") 0).1 = respondFallback ⟨["hi"], .text⟩ ∧
          (generate defaultConfig [initKey 0 "k1"] ⟨["hi"], .text⟩
            (fun _ => AttemptOutcome.success "ok") 0).1.degraded = true)) := by
  have h := generate_no_hard_failure ["k1"] (by simp)
  exact ⟨h.1, h.2 defaultConfig [initKey 0 "k1"] ⟨["hi"], .text⟩
    (fun _ => AttemptOutcome.success "ok") 0⟩

/-- Claim C5: the fallback response is a pure, deterministic function of
the request alone: its text is the template of the request's classified
category, two degraded runs in arbitrary environments produce the same
result, and when no key is usable (all disabled) `Generate` returns the
fallback result with an empty provider-call trace, so no external service
is contacted on the fallback path. -/
theorem fallback_pure_no_external :
    ∀ (req : Request) (cfg cfg2 : Config) (pool pool2 : List KeyRecord)
      (oracle oracle2 : Nat → AttemptOutcome) (now now2 : Nat),
      (respondFallback req).text = categoryTemplate (classifyReq req) ∧
      ((generate cfg pool req oracle now).1.degraded = true →
        (generate cfg2 pool2 req oracle2 now2).1.degraded = true →
        (generate cfg pool req oracle now).1 = (generate cfg2 pool2 req oracle2 now2).1) ∧
      ((∀ k ∈ pool, k.disabled = true) →
        generate cfg pool req oracle now = (respondFallback req, pool, [])) := by
  intro req cfg cfg2 pool pool2 oracle oracle2 now now2
  refine ⟨rfl, ?_, ?_⟩
  · intro hd1 hd2
    rcases generateLoop_cases cfg req oracle now (min 3 pool.length) pool [] with
      ⟨txt, i, _, hres⟩ | hres
    · exfalso
      have : (generate cfg pool req oracle now).1.degraded = false := by
        rw [show (generate cfg pool req oracle now).1 =
          (generateLoop cfg req oracle now (min 3 pool.length) pool []).1 from rfl, hres]
      rw [this] at hd1
      cases hd1
    · rcases generateLoop_cases cfg2 req oracle2 now2 (min 3 pool2.length) pool2 [] with
        ⟨txt2, i2, _, hres2⟩ | hres2
      · exfalso
        have : (generate cfg2 pool2 req oracle2 now2).1.degraded = false := by
          rw [show (generate cfg2 pool2 req oracle2 now2).1 =
            (generateLoop cfg2 req oracle2 now2 (min 3 pool2.length) pool2 []).1 from rfl,
            hres2]
        rw [this] at hd2
        cases hd2
      · calc (generate cfg pool req oracle now).1
            = respondFallback req := hres
          _ = (generate cfg2 pool2 req oracle2 now2).1 := hres2.symm
  · intro hall
    have hsel : ∀ tried, selectKey cfg now tried pool = none := fun tried =>
      selectKey_all_disabled cfg now tried pool hall
    show generateLoop cfg req oracle now (min 3 pool.length) pool [] = _
    cases hmin : min 3 pool.length with
    | zero => rfl
    | succ n => simp [generateLoop, hsel]

/-- Witness for C5: on a pool whose only key is disabled, a run against
an always-successful provider still returns the synthesized fallback,
touches no key, and makes no provider call. -/
theorem fallback_pure_no_external_witness :
    generate defaultConfig [disableKey (initKey 0 "a")] ⟨["plan", "this"], .text⟩
        (fun _ => AttemptOutcome.success "ok") 0 =
      (respondFallback ⟨["plan", "this"], .text⟩, [disableKey (initKey 0 "a")], []) := by
  exact (fallback_pure_no_external ⟨["plan", "this"], .text⟩ defaultConfig defaultConfig
    [disableKey (initKey 0 "a")] [] (fun _ => AttemptOutcome.success "ok")
    (fun _ => AttemptOutcome.success "ok") 0 0).2.2 (by decide)

/-- Claim C10: the per-key sliding-window limit depends on the request
mode: vision-mode generation is limited to 20 requests per 60-second
window while text mode allows 30, and a key state with 25 recent requests
is admitted for a text request but denied for a vision request. -/
theorem mode_dependent_limits :
    limitFor .vision = 20 ∧ limitFor .text = 30 ∧
      (∀ (t : Nat) (calls : List Nat), List.Pairwise (· ≤ ·) calls →
        (admittedTimes 60 (limitFor .vision) [] calls).countP
          (fun x => inWin t 60 x) ≤ 20) ∧
      (admitStep 60 (limitFor .text) (List.replicate 25 0) 0).1 = true ∧
      (admitStep 60 (limitFor .vision) (List.replicate 25 0) 0).1 = false := by
  refine ⟨rfl, rfl, ?_, by decide, by decide⟩
  intro t calls hpw
  have h := admitted_window_le 60 (limitFor .vision) t calls [] hpw (by simp)
  simpa using h

/-- Witness for C10: the vision bound holds on a concrete nondecreasing
call sequence, and the discriminating key state is admitted in text
mode. -/
theorem mode_dependent_limits_witness :
    (admittedTimes 60 (limitFor .vision) [] [0, 1, 2]).countP
        (fun x => inWin 0 60 x) ≤ 20 ∧
      (admitStep 60 (limitFor .text) (List.replicate 25 0) 0).1 = true := by
  exact ⟨mode_dependent_limits.2.2.1 0 [0, 1, 2] (by decide),
    mode_dependent_limits.2.2.2.1⟩

end Gateway
